import Mathlib

/-!
Verification of the PlaceObject tag decoder and display-list engine of gnash
(src/server/swf/PlaceObject2Tag.cpp), against the natural-language specification.

The decoder itself (readPlaceObject, readPlaceActions, readPlaceObject2, execute,
loader) is embedded below directly from the source file.  Collaborator classes that
the source file uses but whose code is not part of the analysed sources (the byte
cursor `stream`, the matrix / cxform readers, `action_buffer`, `filter_factory`,
`sprite_instance`, and the constants of character.h) are modelled from the
specification; each such definition says so in its doc comment.
-/

namespace Gnash

/-- Decode-time failure (spec §4.1/§7): a read was attempted past the declared end of
the tag's byte region. -/
inductive DecodeError where
  | truncatedInput
  deriving DecidableEq

/-- Modelled from the spec (§4.1 Bit/Byte Cursor): a read-only, position-tracking view
over a tag's byte range; the repository's `stream` class is not among the analysed
sources.  `bytes` is the backing byte range, `pos` the current absolute position (the
number of bytes already fetched: a byte some of whose bits were consumed counts as
fetched, as in the source stream), `unusedBits` the number of bits of the most
recently fetched byte still available to bit reads (0 means byte-aligned), and
`tagEnd` the tag's declared end offset.  No operation may fetch a byte at or past
`tagEnd`: any attempt fails with `truncatedInput`. -/
structure SwfStream where
  bytes : List Nat
  pos : Nat
  unusedBits : Nat
  tagEnd : Nat
  deriving DecidableEq

/-- The byte at position `p`, reduced mod 256 (a file byte). -/
def SwfStream.byteAt (s : SwfStream) (p : Nat) : Nat := s.bytes.getD p 0 % 256

/-- Discard any partially consumed byte (spec §4.1 align_to_byte); the discarded byte
was already fetched, so the position does not move. -/
def align (s : SwfStream) : SwfStream := { s with unusedBits := 0 }

/-- Read one bit, most-significant-bit first within a byte (spec §4.1): when no bits
are buffered, fetch the next byte (advancing the position) and serve its top bit;
otherwise serve the next buffered bit. -/
def readBit (s : SwfStream) : Except DecodeError (Bool × SwfStream) :=
  if s.unusedBits = 0 then
    if s.pos < s.tagEnd then
      .ok ((s.byteAt s.pos).testBit 7, { s with pos := s.pos + 1, unusedBits := 7 })
    else .error .truncatedInput
  else
    .ok ((s.byteAt (s.pos - 1)).testBit (s.unusedBits - 1),
         { s with unusedBits := s.unusedBits - 1 })

/-- Read `n` bits as an unsigned integer, MSB first (spec §4.1 read_bits). -/
def readBits : Nat → SwfStream → Except DecodeError (Nat × SwfStream)
  | 0, s => .ok (0, s)
  | n + 1, s => do
    let (b, s1) ← readBit s
    let (rest, s2) ← readBits n s1
    pure ((if b then 2 ^ n else 0) + rest, s2)

/-- Read one byte (spec §4.1 read_u8); byte-level reads first realign the cursor,
which only drops the buffered bits, so the result state is aligned and the position
advances by one. -/
def readU8 (s : SwfStream) : Except DecodeError (Nat × SwfStream) :=
  if s.pos < s.tagEnd then
    .ok (s.byteAt s.pos, { s with pos := s.pos + 1, unusedBits := 0 })
  else .error .truncatedInput

/-- Read a little-endian unsigned 16-bit value (spec §4.1 read_u16). -/
def readU16 (s : SwfStream) : Except DecodeError (Nat × SwfStream) := do
  let (b0, s1) ← readU8 s
  let (b1, s2) ← readU8 s1
  pure (b0 + 256 * b1, s2)

/-- Read a little-endian unsigned 32-bit value (spec §4.1 read_u32). -/
def readU32 (s : SwfStream) : Except DecodeError (Nat × SwfStream) := do
  let (w0, s1) ← readU16 s
  let (w1, s2) ← readU16 s1
  pure (w0 + 65536 * w1, s2)

/-- Read a NUL-terminated string (spec §4.1 read_cstring): fails with `truncatedInput`
when no terminator occurs before `tagEnd`. -/
def readString (s : SwfStream) : Except DecodeError (List Nat × SwfStream) :=
  match (((s.bytes.take s.tagEnd).drop s.pos).map (· % 256)).findIdx? (fun b => b == 0) with
  | some i =>
      .ok ((((s.bytes.take s.tagEnd).drop s.pos).map (· % 256)).take i,
           { s with pos := s.pos + i + 1, unusedBits := 0 })
  | none => .error .truncatedInput

/-- Bounded skip (spec §4.1 skip): `none` when `n` exceeds the remaining bytes; the
source's skip_bytes reports failure through its return value, not an exception. -/
def skipBytes (n : Nat) (s : SwfStream) : Option SwfStream :=
  if s.pos + n ≤ s.tagEnd then some { s with pos := s.pos + n, unusedBits := 0 }
  else none

/-- Modelled from the spec (§3): a 2D affine transform, stored as its raw bit-packed
fields (optional scale pair, optional rotate pair, translate pair); the repository's
matrix class is not among the analysed sources. -/
structure Matrix where
  scaleV : Option (Nat × Nat)
  rotateV : Option (Nat × Nat)
  translateV : Nat × Nat
  deriving DecidableEq

/-- The identity transform a record holds before any matrix is read. -/
def Matrix.default : Matrix := { scaleV := none, rotateV := none, translateV := (0, 0) }

/-- Modelled from the spec (§3): read a 2D affine transform in the container's
bit-packed form: byte-align, optional scale pair, optional rotate pair, then the
translate pair, each pair preceded by a 5-bit field width. -/
def readMatrix (s0 : SwfStream) : Except DecodeError (Matrix × SwfStream) := do
  let s := align s0
  let (hasScale, s) ← readBit s
  let (scaleV, s) ←
    if hasScale then do
      let (n, s) ← readBits 5 s
      let (sx, s) ← readBits n s
      let (sy, s) ← readBits n s
      pure (some (sx, sy), s)
    else pure (none, s)
  let (hasRotate, s) ← readBit s
  let (rotateV, s) ←
    if hasRotate then do
      let (n, s) ← readBits 5 s
      let (r0, s) ← readBits n s
      let (r1, s) ← readBits n s
      pure (some (r0, r1), s)
    else pure (none, s)
  let (tn, s) ← readBits 5 s
  let (tx, s) ← readBits tn s
  let (ty, s) ← readBits tn s
  pure ({ scaleV := scaleV, rotateV := rotateV, translateV := (tx, ty) }, s)

/-- Whether a color transform was decoded in the legacy RGB form or the extended RGBA
form (spec §3, §4.2). -/
inductive CxformKind where
  | rgb
  | rgba
  deriving DecidableEq

/-- The channel count of each color-transform form. -/
def CxformKind.channels : CxformKind → Nat
  | .rgb => 3
  | .rgba => 4

/-- Modelled from the spec (§3): a color transform with RGB (legacy) or RGBA
(extended) channels, stored as its raw bit-packed terms; the repository's cxform class
is not among the analysed sources. -/
structure Cxform where
  kind : CxformKind
  multTerms : Option (List Nat)
  addTerms : Option (List Nat)
  deriving DecidableEq

/-- The neutral color transform a record holds before any cxform is read. -/
def Cxform.default : Cxform := { kind := .rgb, multTerms := none, addTerms := none }

/-- Read `k` consecutive `n`-bit terms. -/
def readTerms : Nat → Nat → SwfStream → Except DecodeError (List Nat × SwfStream)
  | 0, _, s => .ok ([], s)
  | k + 1, n, s => do
    let (v, s1) ← readBits n s
    let (rest, s2) ← readTerms k n s1
    pure (v :: rest, s2)

/-- Modelled from the spec (§3): read a color transform in the container's bit-packed
form: byte-align, an add flag, a mult flag, a 4-bit field width, then the mult terms
and the add terms (one per channel) when their flags are set. -/
def readCxform (kind : CxformKind) (s0 : SwfStream) :
    Except DecodeError (Cxform × SwfStream) := do
  let s := align s0
  let (hasAdd, s) ← readBit s
  let (hasMult, s) ← readBit s
  let (n, s) ← readBits 4 s
  let (multTerms, s) ←
    if hasMult then (readTerms kind.channels n s).map (fun p => (some p.1, p.2))
    else pure (none, s)
  let (addTerms, s) ←
    if hasAdd then (readTerms kind.channels n s).map (fun p => (some p.1, p.2))
    else pure (none, s)
  pure ({ kind := kind, multTerms := multTerms, addTerms := addTerms }, s)

/-- Modelled from the spec (§3): the fixed constant by which raw encoded depths are
offset, so that on-disk depth 0 maps into the negative internal sentinel range.  The
repository's character.h is not among the analysed sources; the value is chosen so
that the whole timeline-reserved zone is negative. -/
def staticDepthOffset : Int := -16384

/-- Modelled from the spec (§3): the "no ratio" sentinel of character.h, distinct from
every decodable u16 ratio. -/
def noRatioValue : Int := -1

/-- Modelled from the spec (§3): the "no clip depth" sentinel of character.h, distinct
from every decodable offset-adjusted clip depth. -/
def noClipDepthValue : Int := -1000000

/-- Modelled from the spec (§4.3): the "no key code" sentinel (key::INVALID). -/
def keyINVALID : Nat := 0

/-- An event registration (spec §3): the event kind as its bit position in the flag
word, the captured action byte-range as a (start, length) pair into the tag's byte
range, and the key code (meaningful only for the key-press kind, bit 17).  Embeds the
swf_event values built at src/server/swf/PlaceObject2Tag.cpp:194-208. -/
structure EventRegistration where
  kind : Nat
  rangeStart : Nat
  rangeLen : Nat
  keyCode : Nat
  deriving DecidableEq

/-- The number of known event kinds (src/server/swf/PlaceObject2Tag.cpp:158). -/
def totalKnownEvents : Nat := 19

/-- The registration-emission loop of src/server/swf/PlaceObject2Tag.cpp:194-208: one
registration per set bit among the 19 known positions, each sharing the same captured
byte-range; only position 17 carries the decoded key code. -/
def emitEventRegistrations (flags ch rangeStart rangeLen : Nat) :
    List EventRegistration :=
  (List.range totalKnownEvents).filterMap fun i =>
    if flags.testBit i then
      some { kind := i, rangeStart := rangeStart, rangeLen := rangeLen,
             keyCode := if i = 17 then ch else keyINVALID }
    else none

/-- The per-event flag word: u32 when the format version is at least 6, else u16
(src/server/swf/PlaceObject2Tag.cpp:79 and 91). -/
def readEventWord (v : Nat) (s : SwfStream) : Except DecodeError (Nat × SwfStream) :=
  if 6 ≤ v then readU32 s else readU16 s

/-- Outcome of one event-table loop iteration: the zero flag word terminated the list
(`done`), a malformed entry broke out of the loop (`stop`), or one entry was decoded
and the loop continues (`next`). -/
inductive EntryStep where
  | done (s : SwfStream)
  | stop (s : SwfStream)
  | next (regs : List EventRegistration) (s : SwfStream)
  deriving DecidableEq

/-- Tail of one event-table entry (src/server/swf/PlaceObject2Tag.cpp:119-208).  The
action parser (action_buffer::read) is not among the analysed sources, so the
demultiplexer is parameterized by `parse`, the parser's byte consumption as a function
of the declared budget and of the remaining tag bytes; the spec's §4.3 step 6 is the
instance `specActionParse` below.  As in the source, a parse longer than the budget
breaks out of the loop, a shorter one has its excess skipped (so net consumption on
the continue path is exactly the budget), and a failing skip also breaks out. -/
def entryTail (parse : Nat → List Nat → Nat) (flags ch budget : Nat)
    (s : SwfStream) : Except DecodeError EntryStep :=
  if budget < parse budget ((s.bytes.take s.tagEnd).drop s.pos) then .ok (.stop s)
  else
    match skipBytes budget s with
    | none => .ok (.stop s)
    | some s1 =>
        .ok (.next (emitEventRegistrations flags ch s.pos
              (parse budget ((s.bytes.take s.tagEnd).drop s.pos))) s1)

/-- The key-press stage of one entry (src/server/swf/PlaceObject2Tag.cpp:111-117):
when bit 17 of the flag word is set, read one key-code byte and decrement the u32
length budget (wrapping at 0, as the source's unsigned arithmetic does); otherwise
pass the sentinel key code and the declared length through unchanged. -/
def readKeyStage (flags len0 : Nat) (s : SwfStream) :
    Except DecodeError ((Nat × Nat) × SwfStream) :=
  if flags.testBit 17 then
    (readU8 s).map fun p => ((p.1, if len0 = 0 then 2 ^ 32 - 1 else len0 - 1), p.2)
  else .ok ((keyINVALID, len0), s)

/-- One iteration of the event-table loop (src/server/swf/PlaceObject2Tag.cpp:86-208):
byte-align, read the flag word (zero terminates the list), read the declared u32
length, break when it exceeds the bytes remaining to the tag end, run the key-press
stage, then capture the action byte-range. -/
def decodeEventEntry (parse : Nat → List Nat → Nat) (v : Nat) (s0 : SwfStream) :
    Except DecodeError EntryStep := do
  let (flags, s1) ← readEventWord v (align s0)
  if flags = 0 then pure (.done s1)
  else do
    let (len0, s2) ← readU32 s1
    if s2.tagEnd - s2.pos < len0 then pure (.stop s2)
    else do
      let (kb, s3) ← readKeyStage flags len0 s2
      entryTail parse flags kb.1 kb.2 s3

/-- The event-table loop (src/server/swf/PlaceObject2Tag.cpp:86-209), with explicit
fuel standing in for the source's unbounded for loop; both break paths return the
registrations accumulated so far, never an error. -/
def readEventsLoop (parse : Nat → List Nat → Nat) (v : Nat) :
    Nat → SwfStream → List EventRegistration →
    Except DecodeError (List EventRegistration × SwfStream)
  | 0, s, acc => .ok (acc, s)
  | fuel + 1, s, acc => do
    match ← decodeEventEntry parse v s with
    | .done s1 => pure (acc, s1)
    | .stop s1 => pure (acc, s1)
    | .next regs s1 => readEventsLoop parse v fuel s1 (acc ++ regs)

/-- The event-table header (src/server/swf/PlaceObject2Tag.cpp:70-83): a u16 reserved
field (warned about when nonzero, never fatal) followed by the cumulative
all-event-flags word, u32 when the version is at least 6 and u16 otherwise. -/
def readActionsHeader (v : Nat) (s : SwfStream) : Except DecodeError (Nat × SwfStream) := do
  let (_reserved, s1) ← readU16 s
  readEventWord v s1

/-- readPlaceActions (src/server/swf/PlaceObject2Tag.cpp:66-210): the header followed
by the event-table loop. -/
def readPlaceActions (parse : Nat → List Nat → Nat) (v : Nat) (s : SwfStream) :
    Except DecodeError (List EventRegistration × SwfStream) := do
  let (_allEventFlags, s1) ← readActionsHeader v s
  readEventsLoop parse v (s1.tagEnd + 1) s1 []

/-- Modelled from the spec (§4.3 step 6): the action parser captures a byte range of
exactly the (possibly already reduced) declared length, without interpreting it. -/
def specActionParse : Nat → List Nat → Nat := fun budget _ => budget

/-- The four placement-mutation semantics (spec §3 PlaceType). -/
inductive PlaceType where
  | place
  | move
  | replace
  | remove
  deriving DecidableEq

/-- The place-type derivation if-chain of src/server/swf/PlaceObject2Tag.cpp:292-310,
verbatim: each branch tests both decoded booleans. -/
def derivePlaceType (has_char flag_move : Bool) : PlaceType :=
  if has_char && flag_move then .replace
  else if !has_char && flag_move then .move
  else if has_char && !flag_move then .place
  else .remove

/-- The decoded placement record (spec §3 PlacementRecord): the PlaceObject2Tag data
members written by the readers of src/server/swf/PlaceObject2Tag.cpp. -/
structure PlaceRecord where
  characterId : Option Nat
  depth : Int
  hasMatrix : Bool
  matrixV : Matrix
  hasCxform : Bool
  colorTransform : Cxform
  ratio : Int
  name : Option (List Nat)
  clipDepth : Int
  eventHandlers : List EventRegistration
  placeType : PlaceType
  deriving DecidableEq

/-- The record before any field is decoded: the member defaults of the tag object. -/
def PlaceRecord.init : PlaceRecord :=
  { characterId := none, depth := 0, hasMatrix := false, matrixV := Matrix.default,
    hasCxform := false, colorTransform := Cxform.default, ratio := noRatioValue,
    name := none, clipDepth := noClipDepthValue, eventHandlers := [],
    placeType := .place }

/-- Depth decoding shared by both variants (src/server/swf/PlaceObject2Tag.cpp:42 and
241): the raw u16 plus the static depth offset. -/
def readDepth (s : SwfStream) : Except DecodeError (Int × SwfStream) :=
  (readU16 s).map fun p => ((p.1 : Int) + staticDepthOffset, p.2)

/-- readPlaceObject, the legacy variant (src/server/swf/PlaceObject2Tag.cpp:37-63):
character id, offset-adjusted depth, a mandatory matrix, then the optional RGB color
transform exactly when the cursor is strictly before the tag's declared end. -/
def readPlaceObject (s : SwfStream) : Except DecodeError (PlaceRecord × SwfStream) := do
  let (cid, s1) ← readU16 s
  let (depth, s2) ← readDepth s1
  let (mtx, s3) ← readMatrix s2
  if s3.pos < s3.tagEnd then do
    let (cx, s4) ← readCxform .rgb s3
    pure (mkLegacyRecord cid depth mtx (some cx), s4)
  else
    pure (mkLegacyRecord cid depth mtx none, s3)
where
  /-- The members the legacy reader writes, over the constructor defaults; the source
  stores the optional cxform into the record's color-transform member without touching
  the has-cxform flag. -/
  mkLegacyRecord (cid : Nat) (depth : Int) (mtx : Matrix) (cx : Option Cxform) :
      PlaceRecord :=
    { PlaceRecord.init with
        characterId := some cid, depth := depth, matrixV := mtx,
        colorTransform := cx.getD Cxform.default }

/-- Modelled from the spec (§4.2): the filter-list decoder (filter_factory::read) is
not among the analysed sources; the spec records only that the filter list is decoded
and then discarded.  It is modelled as a count byte followed by one opaque byte per
filter. -/
def filterFactoryRead (s : SwfStream) : Except DecodeError (List Nat × SwfStream) := do
  let (n, s1) ← readU8 s
  readNBytesAux n s1
where
  readNBytesAux : Nat → SwfStream → Except DecodeError (List Nat × SwfStream)
    | 0, s => .ok ([], s)
    | k + 1, s => do
      let (b, s1) ← readU8 s
      let (rest, s2) ← readNBytesAux k s1
      pure (b :: rest, s2)

/-- The members the extended reader writes (src/server/swf/PlaceObject2Tag.cpp): the
optional matrix and cxform land in their value members with the corresponding
has-flags, and the place type comes from the source's if-chain on
(has_char, flag_move). -/
def mkExtendedRecord (cid : Option Nat) (depth : Int) (mtx : Option Matrix)
    (cx : Option Cxform) (ratio : Int) (nm : Option (List Nat)) (clip : Int)
    (evs : List EventRegistration) (has_char flag_move : Bool) : PlaceRecord :=
  { characterId := cid, depth := depth, hasMatrix := mtx.isSome,
    matrixV := mtx.getD Matrix.default, hasCxform := cx.isSome,
    colorTransform := cx.getD Cxform.default, ratio := ratio, name := nm,
    clipDepth := clip, eventHandlers := evs,
    placeType := derivePlaceType has_char flag_move }

/-- Read a flag-gated optional field: the rendering of the source's
`if (flag) { member = read(in); }` conditionals. -/
def readOpt {α : Type} (b : Bool)
    (rd : SwfStream → Except DecodeError (α × SwfStream)) (s : SwfStream) :
    Except DecodeError (Option α × SwfStream) :=
  if b then (rd s).map (fun p => (some p.1, p.2)) else .ok (none, s)

/-- Read a flag-gated field that falls back to a sentinel default when its flag is
absent: the rendering of the source's `if (flag) read else sentinel` conditionals. -/
def readOptD {α : Type} (b : Bool)
    (rd : SwfStream → Except DecodeError (α × SwfStream)) (dflt : α)
    (s : SwfStream) : Except DecodeError (α × SwfStream) :=
  if b then rd s else .ok (dflt, s)

/-- Read the ratio field as the source stores it (a u16 widened to the int member). -/
def readRatio (s : SwfStream) : Except DecodeError (Int × SwfStream) :=
  (readU16 s).map fun p => ((p.1 : Int), p.2)

/-- The flag-gated field sequence of the extended variant
(src/server/swf/PlaceObject2Tag.cpp:241-290), factored out of the flag block: depth
(unconditional), character id, matrix, RGBA color transform, ratio (sentinel when
absent), name, clip depth (sentinel when absent), filter list (consumed, not
attached), blend-mode byte (discarded), bitmap-caching byte (discarded), and the
event table, each gated by its flag. -/
def readPlaceObject2Fields (parse : Nat → List Nat → Nat) (v : Nat)
    (has_actions has_clip_bracket has_name has_ratio has_cxform has_matrix
     has_char flag_move has_bitmap_caching has_blend_mode has_filters : Bool)
    (s0 : SwfStream) : Except DecodeError (PlaceRecord × SwfStream) := do
  let (depth, s) ← readDepth s0
  let (cid, s) ← readOpt has_char readU16 s
  let (mtx, s) ← readOpt has_matrix readMatrix s
  let (cx, s) ← readOpt has_cxform (readCxform .rgba) s
  let (ratio, s) ← readOptD has_ratio readRatio noRatioValue s
  let (nm, s) ← readOpt has_name readString s
  let (clip, s) ← readOptD has_clip_bracket readDepth noClipDepthValue s
  let (_filters, s) ← readOptD has_filters filterFactoryRead [] s
  let (_blend_mode, s) ← readOpt has_blend_mode readU8 s
  let (_bitmask, s) ← readOpt has_bitmap_caching readU8 s
  let (evs, s) ← readOptD has_actions (readPlaceActions parse v) [] s
  pure (mkExtendedRecord cid depth mtx cx ratio nm clip evs has_char flag_move, s)

/-- readPlaceObject2, the extended variant (src/server/swf/PlaceObject2Tag.cpp:213-332).
`place_2` is true for PLACEOBJECT2 and false for PLACEOBJECT3, exactly as the source's
boolean; `parse` is the action-parser parameter of `entryTail`.  The 8 one-bit flags
are read in source order, the 5 reserved bits plus 3 extra flags only for PLACEOBJECT3
on versions at least 8, and the gated fields follow in source order. -/
def readPlaceObject2 (parse : Nat → List Nat → Nat) (v : Nat) (place_2 : Bool)
    (s0 : SwfStream) : Except DecodeError (PlaceRecord × SwfStream) := do
  let s := align s0
  let (has_actions, s) ← readBit s
  let (has_clip_bracket, s) ← readBit s
  let (has_name, s) ← readBit s
  let (has_ratio, s) ← readBit s
  let (has_cxform, s) ← readBit s
  let (has_matrix, s) ← readBit s
  let (has_char, s) ← readBit s
  let (flag_move, s) ← readBit s
  let (v8flags, s) ←
    if !place_2 && 8 ≤ v then do
      let (_ignored, s) ← readBits 5 s
      let (hbc, s) ← readBit s
      let (hbm, s) ← readBit s
      let (hf, s) ← readBit s
      pure (((hbc, hbm), hf), s)
    else pure (((false, false), false), s)
  readPlaceObject2Fields parse v has_actions has_clip_bracket has_name has_ratio
    has_cxform has_matrix has_char flag_move v8flags.1.1 v8flags.1.2 v8flags.2 s

/-- The loader's timeline-depth registration condition
(src/server/swf/PlaceObject2Tag.cpp:420-428): addTimelineDepth is called exactly when
the decoded depth is negative and at least the static depth offset; other depths are
only logged. -/
def loaderRegistersTimelineDepth (depth : Int) : Bool :=
  decide (depth < 0) && decide (staticDepthOffset ≤ depth)

/-- The 8 + 3 one-bit flags of the extended variants, grouped as the spec lists them
(§4.2). -/
structure ExtFlags where
  hasActions : Bool
  hasClipDepth : Bool
  hasName : Bool
  hasRatio : Bool
  hasCxform : Bool
  hasMatrix : Bool
  hasCharacter : Bool
  move : Bool
  hasBitmapCaching : Bool
  hasBlendMode : Bool
  hasFilters : Bool
  deriving DecidableEq

/-- Written from the spec's words (§4.2, extended variants, first sentence), for
comparison with the source embedding: read, in fixed order, the 8 one-bit flags, then,
only for the PlaceObject3 variant on format versions at least 8, 5 reserved bits
followed by the 3 extra one-bit flags. -/
def specReadExtFlags (v : Nat) (place_2 : Bool) (s0 : SwfStream) :
    Except DecodeError (ExtFlags × SwfStream) := do
  let (a, s) ← readBit s0
  let (cb, s) ← readBit s
  let (nmf, s) ← readBit s
  let (r, s) ← readBit s
  let (cxf, s) ← readBit s
  let (mxf, s) ← readBit s
  let (chf, s) ← readBit s
  let (mvf, s) ← readBit s
  if !place_2 && 8 ≤ v then do
    let (_reserved, s) ← readBits 5 s
    let (bc, s) ← readBit s
    let (bm, s) ← readBit s
    let (fl, s) ← readBit s
    pure (mk8 a cb nmf r cxf mxf chf mvf bc bm fl, s)
  else
    pure (mk8 a cb nmf r cxf mxf chf mvf false false false, s)
where
  mk8 (a cb nmf r cxf mxf chf mvf bc bm fl : Bool) : ExtFlags :=
    { hasActions := a, hasClipDepth := cb, hasName := nmf, hasRatio := r,
      hasCxform := cxf, hasMatrix := mxf, hasCharacter := chf, move := mvf,
      hasBitmapCaching := bc, hasBlendMode := bm, hasFilters := fl }

/-- Written from the spec's words (§3): the PlaceType truth table. -/
def specPlaceTypeTable (has_char move_flag : Bool) : PlaceType :=
  match has_char, move_flag with
  | true, false => .place
  | true, true => .replace
  | false, true => .move
  | false, false => .remove

/-- Written from the spec's words (§3 PlacementRecord): the record assembled from the
decoded fields, with the PlaceType taken from the spec's truth table. -/
def specRecord (f : ExtFlags) (depth : Int) (cid : Option Nat) (mtx : Option Matrix)
    (cx : Option Cxform) (ratio : Int) (nm : Option (List Nat)) (clip : Int)
    (evs : List EventRegistration) : PlaceRecord :=
  { characterId := cid, depth := depth, hasMatrix := mtx.isSome,
    matrixV := mtx.getD Matrix.default, hasCxform := cx.isSome,
    colorTransform := cx.getD Cxform.default, ratio := ratio, name := nm,
    clipDepth := clip, eventHandlers := evs,
    placeType := specPlaceTypeTable f.hasCharacter f.move }

/-- Written from the spec's words (§4.2, extended variants, second sentence), for
comparison with the source embedding: gated strictly by the flags and in this exact
order: depth (unconditional, offset-adjusted), character id, matrix, RGBA color
transform, ratio (sentinel when absent), name, clip depth (offset-adjusted, sentinel
when absent), filter list (decoded and discarded), blend-mode byte (discarded),
bitmap-caching byte (discarded), and finally the event table. -/
def specDecodeExtendedFields (parse : Nat → List Nat → Nat) (v : Nat) (f : ExtFlags)
    (s0 : SwfStream) : Except DecodeError (PlaceRecord × SwfStream) := do
  let (depth, s) ← readDepth s0
  let (cid, s) ← readOpt f.hasCharacter readU16 s
  let (mtx, s) ← readOpt f.hasMatrix readMatrix s
  let (cx, s) ← readOpt f.hasCxform (readCxform .rgba) s
  let (ratio, s) ← readOptD f.hasRatio readRatio noRatioValue s
  let (nm, s) ← readOpt f.hasName readString s
  let (clip, s) ← readOptD f.hasClipDepth readDepth noClipDepthValue s
  let (_filters, s) ← readOptD f.hasFilters filterFactoryRead [] s
  let (_blend_mode, s) ← readOpt f.hasBlendMode readU8 s
  let (_caching, s) ← readOpt f.hasBitmapCaching readU8 s
  let (evs, s) ← readOptD f.hasActions (readPlaceActions parse v) [] s
  pure (specRecord f depth cid mtx cx ratio nm clip evs, s)

/-- Written from the spec's words (§4.2, extended variants): the flag block followed
by the gated fields. -/
def specDecodeExtended (parse : Nat → List Nat → Nat) (v : Nat) (place_2 : Bool)
    (s0 : SwfStream) : Except DecodeError (PlaceRecord × SwfStream) := do
  let (f, s) ← specReadExtFlags v place_2 (align s0)
  specDecodeExtendedFields parse v f s

/-- Modelled from the spec (§3/§4.4): a live display-list instance, an identity token
plus the fields the engine can update; sprite_instance and the display list are not
among the analysed sources. -/
structure Instance where
  instId : Nat
  charId : Nat
  instName : Option (List Nat)
  cxform : Cxform
  mtx : Matrix
  ratio : Int
  clipDepth : Int
  events : List EventRegistration
  deriving DecidableEq

/-- The display list (spec §3): a depth-keyed association list, at most one instance
per depth. -/
abbrev DisplayList := List (Int × Instance)

/-- Look up the instance at a depth. -/
def lookupDepth (dl : DisplayList) (d : Int) : Option Instance :=
  (dl.find? (fun p => p.1 == d)).map Prod.snd

/-- Modelled from the spec (§4.4 Move): the field update applied to the existing
instance — only the fields actually present change (a null color transform or matrix,
and a sentinel ratio or clip depth, leave the old value); the identity token, the
character, the name, and the event registrations are not touched. -/
def moveUpdate (cx : Option Cxform) (mtx : Option Matrix) (ratio clip : Int)
    (inst : Instance) : Instance :=
  { inst with
      cxform := cx.getD inst.cxform, mtx := mtx.getD inst.mtx,
      ratio := if ratio = noRatioValue then inst.ratio else ratio,
      clipDepth := if clip = noClipDepthValue then inst.clipDepth else clip }

/-- Modelled from the spec (§4.4 Move): apply `moveUpdate` to the instance at the
depth; a missing occupant is a logged no-op. -/
def moveDisplayObject (dl : DisplayList) (d : Int) (cx : Option Cxform)
    (mtx : Option Matrix) (ratio : Int) (clip : Int) : DisplayList :=
  dl.map fun p => if p.1 == d then (p.1, moveUpdate cx mtx ratio clip p.2) else p

/-- Modelled from the spec (§4.4 Place): a dictionary miss is a logged skip; otherwise
a new instance is inserted at the record's depth, overwriting any prior occupant. -/
def addDisplayObject (dict : Nat → Bool) (freshId : Nat) (rec : PlaceRecord)
    (dl : DisplayList) : DisplayList :=
  match rec.characterId with
  | none => dl
  | some cid =>
      if dict cid then
        (rec.depth, { instId := freshId, charId := cid, instName := rec.name,
                      cxform := rec.colorTransform, mtx := rec.matrixV,
                      ratio := rec.ratio, clipDepth := rec.clipDepth,
                      events := rec.eventHandlers })
          :: dl.filter (fun p => p.1 != rec.depth)
      else dl

/-- Modelled from the spec (§4.4 Replace): the occupant at the record's depth, when
present, is atomically replaced by a new instance built from the record; a missing
occupant is a logged no-op. -/
def replaceDisplayObject (freshId : Nat) (rec : PlaceRecord) (cx : Option Cxform)
    (mtx : Option Matrix) (dl : DisplayList) : DisplayList :=
  dl.map fun p =>
    if p.1 == rec.depth then
      (p.1, { instId := freshId, charId := rec.characterId.getD 0,
              instName := rec.name, cxform := cx.getD Cxform.default,
              mtx := mtx.getD Matrix.default, ratio := rec.ratio,
              clipDepth := rec.clipDepth, events := [] })
    else p

/-- Modelled from the spec (§4.4 Remove): erase the entry at the record's depth;
absence is not an error. -/
def removeDisplayObject (dl : DisplayList) (d : Int) : DisplayList :=
  dl.filter (fun p => p.1 != d)

/-- execute (src/server/swf/PlaceObject2Tag.cpp:351-391): dispatch on the place type.
The move and replace arms pass the color transform and the matrix only when their
has-flags are set (null otherwise), and the ratio and clip depth exactly as decoded
(so a sentinel when absent); the sprite_instance operations themselves are the
spec-modelled display-list functions above. -/
def execute (dict : Nat → Bool) (freshId : Nat) (rec : PlaceRecord)
    (dl : DisplayList) : DisplayList :=
  match rec.placeType with
  | .place => addDisplayObject dict freshId rec dl
  | .move =>
      moveDisplayObject dl rec.depth
        (if rec.hasCxform then some rec.colorTransform else none)
        (if rec.hasMatrix then some rec.matrixV else none)
        rec.ratio rec.clipDepth
  | .replace =>
      replaceDisplayObject freshId rec
        (if rec.hasCxform then some rec.colorTransform else none)
        (if rec.hasMatrix then some rec.matrixV else none) dl
  | .remove => removeDisplayObject dl rec.depth

/-! Basic facts about the cursor operations, used throughout the claim proofs. -/

theorem align_fields (s : SwfStream) :
    (align s).bytes = s.bytes ∧ (align s).pos = s.pos ∧ (align s).tagEnd = s.tagEnd ∧
      (align s).unusedBits = 0 := by
  simp [align]

theorem readU8_ok {s : SwfStream} {b : Nat} {s' : SwfStream}
    (h : readU8 s = .ok (b, s')) :
    s'.bytes = s.bytes ∧ s'.tagEnd = s.tagEnd ∧ s'.pos = s.pos + 1 ∧
      s'.unusedBits = 0 ∧ s.pos < s.tagEnd ∧ b = s.byteAt s.pos := by
  unfold readU8 at h
  split at h
  · simp only [Except.ok.injEq, Prod.mk.injEq] at h
    obtain ⟨hb, hs⟩ := h
    subst hs
    simp_all
  · exact absurd h (by simp)

theorem readU8_isOk {s : SwfStream} (h : s.pos < s.tagEnd) :
    readU8 s = .ok (s.byteAt s.pos, { s with pos := s.pos + 1, unusedBits := 0 }) := by
  unfold readU8
  simp [h]

theorem readU16_ok {s : SwfStream} {b : Nat} {s' : SwfStream}
    (h : readU16 s = .ok (b, s')) :
    s'.bytes = s.bytes ∧ s'.tagEnd = s.tagEnd ∧ s'.pos = s.pos + 2 ∧
      s'.unusedBits = 0 ∧ s.pos + 2 ≤ s.tagEnd := by
  unfold readU16 at h
  cases h1 : readU8 s with
  | error e => simp [h1, Bind.bind, Except.bind] at h
  | ok p1 =>
    obtain ⟨b0, s1⟩ := p1
    simp only [h1, Bind.bind, Except.bind] at h
    cases h2 : readU8 s1 with
    | error e => simp [h2] at h
    | ok p2 =>
      obtain ⟨b1, s2⟩ := p2
      simp only [h2, pure, Except.pure, Except.ok.injEq, Prod.mk.injEq] at h
      obtain ⟨hb, hs⟩ := h
      subst hs
      obtain ⟨e1, e2, e3, e4, e5, e6⟩ := readU8_ok h1
      obtain ⟨f1, f2, f3, f4, f5, f6⟩ := readU8_ok h2
      refine ⟨f1.trans e1, f2.trans e2, ?_, f4, ?_⟩ <;> omega

theorem readU32_ok {s : SwfStream} {b : Nat} {s' : SwfStream}
    (h : readU32 s = .ok (b, s')) :
    s'.bytes = s.bytes ∧ s'.tagEnd = s.tagEnd ∧ s'.pos = s.pos + 4 ∧
      s'.unusedBits = 0 ∧ s.pos + 4 ≤ s.tagEnd := by
  unfold readU32 at h
  cases h1 : readU16 s with
  | error e => simp [h1, Bind.bind, Except.bind] at h
  | ok p1 =>
    obtain ⟨w0, s1⟩ := p1
    simp only [h1, Bind.bind, Except.bind] at h
    cases h2 : readU16 s1 with
    | error e => simp [h2] at h
    | ok p2 =>
      obtain ⟨w1, s2⟩ := p2
      simp only [h2, pure, Except.pure, Except.ok.injEq, Prod.mk.injEq] at h
      obtain ⟨hb, hs⟩ := h
      subst hs
      obtain ⟨e1, e2, e3, e4, e5⟩ := readU16_ok h1
      obtain ⟨f1, f2, f3, f4, f5⟩ := readU16_ok h2
      refine ⟨f1.trans e1, f2.trans e2, ?_, f4, ?_⟩ <;> omega

theorem readEventWord_ok {v : Nat} {s : SwfStream} {b : Nat} {s' : SwfStream}
    (h : readEventWord v s = .ok (b, s')) :
    s'.bytes = s.bytes ∧ s'.tagEnd = s.tagEnd ∧
      s'.pos = s.pos + (if 6 ≤ v then 4 else 2) ∧ s'.unusedBits = 0 ∧
      s.pos + (if 6 ≤ v then 4 else 2) ≤ s.tagEnd := by
  unfold readEventWord at h
  by_cases hv : 6 ≤ v
  · simp only [hv, if_true] at h ⊢
    exact ⟨(readU32_ok h).1, (readU32_ok h).2.1, (readU32_ok h).2.2.1,
      (readU32_ok h).2.2.2.1, (readU32_ok h).2.2.2.2⟩
  · simp only [hv, if_false] at h ⊢
    exact ⟨(readU16_ok h).1, (readU16_ok h).2.1, (readU16_ok h).2.2.1,
      (readU16_ok h).2.2.2.1, (readU16_ok h).2.2.2.2⟩

/-- C1: for every pair of decoded booleans (has_char, move_flag), the PlaceType
derived by the extended-variant decoder's if-chain
(src/server/swf/PlaceObject2Tag.cpp:292-310) is exactly the one given by the spec's
truth table: (true,false) yields Place, (true,true) yields Replace, (false,true)
yields Move, and (false,false) yields Remove. -/
theorem placeType_truth_table :
    ∀ has_char flag_move : Bool,
      derivePlaceType has_char flag_move = specPlaceTypeTable has_char flag_move := by
  decide

/-- Membership in the emitted registration list: exactly the known set bits, each
registration carrying the shared byte-range and, for bit 17 only, the key code. -/
theorem mem_emitEventRegistrations {flags ch st len : Nat} {r : EventRegistration} :
    r ∈ emitEventRegistrations flags ch st len ↔
      r.kind < totalKnownEvents ∧ flags.testBit r.kind = true ∧
        r.rangeStart = st ∧ r.rangeLen = len ∧
        r.keyCode = (if r.kind = 17 then ch else keyINVALID) := by
  obtain ⟨k, rs, rl, kc⟩ := r
  simp only [emitEventRegistrations, List.mem_filterMap, List.mem_range]
  constructor
  · rintro ⟨i, hi, hite⟩
    by_cases hb : flags.testBit i
    · simp only [hb, if_true, Option.some.injEq, EventRegistration.mk.injEq] at hite
      obtain ⟨hk, h1, h2, h3⟩ := hite
      subst hk
      exact ⟨hi, hb, h1.symm, h2.symm, h3.symm⟩
    · simp [hb] at hite
  · rintro ⟨hi, hb, h1, h2, h3⟩
    refine ⟨k, hi, ?_⟩
    simp [hb, h1, h2, h3]

/-- The emitted registration count equals the number of set bits scanned. -/
theorem length_emitEventRegistrations (flags ch st len : Nat) :
    (emitEventRegistrations flags ch st len).length
      = ((List.range totalKnownEvents).filter (fun i => flags.testBit i)).length := by
  unfold emitEventRegistrations
  induction List.range totalKnownEvents with
  | nil => rfl
  | cons a t ih => by_cases h : flags.testBit a <;> simp [h, ih]

/-- C6: for every event-table entry whose flag word has k of the 19 known bit
positions (0..18) set, exactly k EventRegistrations are emitted by the loop of
src/server/swf/PlaceObject2Tag.cpp:194-208, all sharing the single captured action
byte-range (the same start/length pair, not a copy); the registration for bit 17
additionally carries the decoded key code; and set bits at positions at least 19
never produce a registration (the emitted list only depends on the low 19 bits; the
high bits only feed the logged warning). -/
theorem event_demux_registrations (flags ch st len : Nat) :
    ((emitEventRegistrations flags ch st len).length
        = ((List.range totalKnownEvents).filter (fun i => flags.testBit i)).length) ∧
    (∀ r ∈ emitEventRegistrations flags ch st len,
        r.rangeStart = st ∧ r.rangeLen = len) ∧
    (∀ i, (∃ r ∈ emitEventRegistrations flags ch st len, r.kind = i) ↔
        (i < totalKnownEvents ∧ flags.testBit i = true)) ∧
    (∀ r ∈ emitEventRegistrations flags ch st len,
        r.keyCode = if r.kind = 17 then ch else keyINVALID) ∧
    (emitEventRegistrations flags ch st len
        = emitEventRegistrations (flags % 2 ^ totalKnownEvents) ch st len) := by
  refine ⟨length_emitEventRegistrations flags ch st len, ?_, ?_, ?_, ?_⟩
  · intro r hr
    have h := mem_emitEventRegistrations.mp hr
    exact ⟨h.2.2.1, h.2.2.2.1⟩
  · intro i
    constructor
    · rintro ⟨r, hr, hk⟩
      have h := mem_emitEventRegistrations.mp hr
      subst hk
      exact ⟨h.1, h.2.1⟩
    · rintro ⟨hi, hb⟩
      refine ⟨{ kind := i, rangeStart := st, rangeLen := len,
                keyCode := if i = 17 then ch else keyINVALID }, ?_, rfl⟩
      exact mem_emitEventRegistrations.mpr ⟨hi, hb, rfl, rfl, rfl⟩
  · intro r hr
    exact (mem_emitEventRegistrations.mp hr).2.2.2.2
  · unfold emitEventRegistrations
    apply List.filterMap_congr
    intro i hi
    have hlt : i < totalKnownEvents := List.mem_range.mp hi
    have : (flags % 2 ^ totalKnownEvents).testBit i = flags.testBit i := by
      rw [Nat.testBit_mod_two_pow]
      simp [hlt]
    rw [this]

/-- Witness for C6 at a concrete flag word with bits 0 and 17 set plus an
unrecognized bit 25: two registrations are emitted and the high bit is ignored. -/
theorem event_demux_registrations_witness :
    ((emitEventRegistrations 33685505 7 9 4).length
        = ((List.range totalKnownEvents).filter
            (fun i => (33685505 : Nat).testBit i)).length) ∧
    (emitEventRegistrations 33685505 7 9 4
        = emitEventRegistrations (33685505 % 2 ^ totalKnownEvents) 7 9 4) :=
  ⟨(event_demux_registrations 33685505 7 9 4).1,
   (event_demux_registrations 33685505 7 9 4).2.2.2.2⟩

theorem skipBytes_some {n : Nat} {s s' : SwfStream} (h : skipBytes n s = some s') :
    s.pos + n ≤ s.tagEnd ∧
      s' = { s with pos := s.pos + n, unusedBits := 0 } := by
  unfold skipBytes at h
  split at h
  · exact ⟨by assumption, by injection h with h; exact h.symm⟩
  · cases h

/-- C5: for every event-table entry whose declared u32 event-body length exceeds the
bytes remaining before the tag's declared end, the demultiplexer
(src/server/swf/PlaceObject2Tag.cpp:98-109) stops decoding the entire event list: the
entry step yields `stop` right after the length word (no byte of the entry body is
consumed, and the position never passes the tag end), the loop returns the
registrations accumulated so far, and the result is `ok`, not an error. -/
theorem event_length_overrun_aborts_list (parse : Nat → List Nat → Nat)
    (v fuel : Nat) (acc : List EventRegistration) {s0 s1 s2 : SwfStream} {w L : Nat}
    (h1 : readEventWord v (align s0) = .ok (w, s1)) (hw : w ≠ 0)
    (h2 : readU32 s1 = .ok (L, s2)) (hlen : s2.tagEnd - s2.pos < L) :
    decodeEventEntry parse v s0 = .ok (.stop s2) ∧
    readEventsLoop parse v (fuel + 1) s0 acc = .ok (acc, s2) ∧
    s2.pos ≤ s0.tagEnd := by
  have hentry : decodeEventEntry parse v s0 = .ok (.stop s2) := by
    unfold decodeEventEntry
    simp only [h1, Bind.bind, Except.bind]
    rw [if_neg hw]
    simp only [h2]
    rw [if_pos hlen]
    rfl
  refine ⟨hentry, ?_, ?_⟩
  · unfold readEventsLoop
    simp only [hentry, Bind.bind, Except.bind]
    rfl
  · have e1 := readEventWord_ok h1
    have e2 := readU32_ok h2
    have e3 := align_fields s0
    omega

/-- Witness for C5: a version-6 entry declaring a 200-byte body with only 1 byte left
in the tag; decoding stops cleanly after the length word, keeping the accumulated
registration. -/
theorem event_length_overrun_aborts_list_witness :
    decodeEventEntry specActionParse 6
        { bytes := [1, 0, 0, 0, 200, 0, 0, 0, 9], pos := 0, unusedBits := 0,
          tagEnd := 9 }
      = .ok (.stop { bytes := [1, 0, 0, 0, 200, 0, 0, 0, 9], pos := 8,
                     unusedBits := 0, tagEnd := 9 }) ∧
    readEventsLoop specActionParse 6 4
        { bytes := [1, 0, 0, 0, 200, 0, 0, 0, 9], pos := 0, unusedBits := 0,
          tagEnd := 9 }
        [{ kind := 0, rangeStart := 0, rangeLen := 0, keyCode := 0 }]
      = .ok ([{ kind := 0, rangeStart := 0, rangeLen := 0, keyCode := 0 }],
             { bytes := [1, 0, 0, 0, 200, 0, 0, 0, 9], pos := 8, unusedBits := 0,
               tagEnd := 9 }) := by
  have h := @event_length_overrun_aborts_list specActionParse 6 3
    [{ kind := 0, rangeStart := 0, rangeLen := 0, keyCode := 0 }]
    { bytes := [1, 0, 0, 0, 200, 0, 0, 0, 9], pos := 0, unusedBits := 0,
      tagEnd := 9 }
    { bytes := [1, 0, 0, 0, 200, 0, 0, 0, 9], pos := 4, unusedBits := 0,
      tagEnd := 9 }
    { bytes := [1, 0, 0, 0, 200, 0, 0, 0, 9], pos := 8, unusedBits := 0,
      tagEnd := 9 }
    1 200 (by rfl) (by decide) (by rfl) (by decide)
  exact ⟨h.1, h.2.1⟩

/-- C10: when the action bytes parsed for an event entry exceed that entry's declared
length budget (src/server/swf/PlaceObject2Tag.cpp:119-135), the demultiplexer stops
decoding further entries, but the registrations accumulated for earlier entries of
the same event table are kept (the loop returns them), and the result is `ok`: no
error propagates to the enclosing tag decode. -/
theorem action_overrun_keeps_earlier_registrations (parse : Nat → List Nat → Nat)
    (v fuel : Nat) (acc : List EventRegistration)
    {s0 s1 s2 s3 : SwfStream} {w L ch budget : Nat}
    (h1 : readEventWord v (align s0) = .ok (w, s1)) (hw : w ≠ 0)
    (h2 : readU32 s1 = .ok (L, s2)) (hrem : L ≤ s2.tagEnd - s2.pos)
    (hkb : readKeyStage w L s2 = .ok ((ch, budget), s3))
    (hover : budget < parse budget ((s3.bytes.take s3.tagEnd).drop s3.pos)) :
    decodeEventEntry parse v s0 = .ok (.stop s3) ∧
    readEventsLoop parse v (fuel + 1) s0 acc = .ok (acc, s3) := by
  have hentry : decodeEventEntry parse v s0 = .ok (.stop s3) := by
    unfold decodeEventEntry
    simp only [h1, Bind.bind, Except.bind]
    rw [if_neg hw]
    simp only [h2]
    rw [if_neg (by omega)]
    simp only [hkb, entryTail]
    rw [if_pos hover]
  refine ⟨hentry, ?_⟩
  unfold readEventsLoop
  simp only [hentry, Bind.bind, Except.bind]
  rfl

/-- Witness for C10: a version-6 entry with declared length 2 whose action parser
consumes all 3 remaining bytes; the accumulated earlier registration survives and the
loop result is `ok`. -/
theorem action_overrun_keeps_earlier_registrations_witness :
    decodeEventEntry (fun _ l => l.length) 6
        { bytes := [1, 0, 0, 0, 2, 0, 0, 0, 9, 9, 9], pos := 0, unusedBits := 0,
          tagEnd := 11 }
      = .ok (.stop { bytes := [1, 0, 0, 0, 2, 0, 0, 0, 9, 9, 9], pos := 8,
                     unusedBits := 0, tagEnd := 11 }) ∧
    readEventsLoop (fun _ l => l.length) 6 6
        { bytes := [1, 0, 0, 0, 2, 0, 0, 0, 9, 9, 9], pos := 0, unusedBits := 0,
          tagEnd := 11 }
        [{ kind := 5, rangeStart := 1, rangeLen := 1, keyCode := 0 }]
      = .ok ([{ kind := 5, rangeStart := 1, rangeLen := 1, keyCode := 0 }],
             { bytes := [1, 0, 0, 0, 2, 0, 0, 0, 9, 9, 9], pos := 8,
               unusedBits := 0, tagEnd := 11 }) :=
  @action_overrun_keeps_earlier_registrations (fun _ l => l.length) 6 5
    [{ kind := 5, rangeStart := 1, rangeLen := 1, keyCode := 0 }]
    { bytes := [1, 0, 0, 0, 2, 0, 0, 0, 9, 9, 9], pos := 0, unusedBits := 0,
      tagEnd := 11 }
    { bytes := [1, 0, 0, 0, 2, 0, 0, 0, 9, 9, 9], pos := 4, unusedBits := 0,
      tagEnd := 11 }
    { bytes := [1, 0, 0, 0, 2, 0, 0, 0, 9, 9, 9], pos := 8, unusedBits := 0,
      tagEnd := 11 }
    { bytes := [1, 0, 0, 0, 2, 0, 0, 0, 9, 9, 9], pos := 8, unusedBits := 0,
      tagEnd := 11 }
    1 2 keyINVALID 2
    (by rfl) (by decide) (by rfl) (by decide) (by rfl) (by decide)

theorem readKeyStage_ok {flags len0 : Nat} {s : SwfStream} {ch budget : Nat}
    {s' : SwfStream} (h : readKeyStage flags len0 s = .ok ((ch, budget), s')) :
    budget = (if flags.testBit 17 then (if len0 = 0 then 2 ^ 32 - 1 else len0 - 1)
              else len0) ∧
      s'.bytes = s.bytes ∧ s'.tagEnd = s.tagEnd ∧ s.pos ≤ s'.pos := by
  unfold readKeyStage at h
  by_cases hb : flags.testBit 17
  · rw [if_pos hb] at h
    rw [if_pos hb]
    cases h8 : readU8 s with
    | error e => rw [h8] at h; cases h
    | ok p =>
      obtain ⟨b, s1⟩ := p
      rw [h8] at h
      simp only [Except.map, Except.ok.injEq, Prod.mk.injEq] at h
      obtain ⟨⟨hc, hbud⟩, hs⟩ := h
      subst hs
      obtain ⟨e1, e2, e3, e4, e5, e6⟩ := readU8_ok h8
      exact ⟨hbud.symm, e1, e2, by omega⟩
  · rw [if_neg hb] at h
    rw [if_neg hb]
    simp only [Except.ok.injEq, Prod.mk.injEq] at h
    obtain ⟨⟨hc, hbud⟩, hs⟩ := h
    subst hs
    exact ⟨hbud.symm, rfl, rfl, le_refl _⟩

/-- C2: for every decoded event-table entry, the captured action byte-range handed to
the emitted registrations has length exactly the declared event-body length, reduced
by one when flag bit 17 (key-press) is set, because one key-code byte is consumed
first (src/server/swf/PlaceObject2Tag.cpp:111-155).  The range is captured without
interpreting its contents: the capture is the spec-modelled parser `specActionParse`
(§4.3 step 6), since action_buffer is not among the analysed sources.  The tag-end
bound excludes the physically impossible 4-GiB tag on which the source's u32
wrap-around would fire. -/
theorem captured_range_length (v : Nat) {s0 s1 s2 s3 : SwfStream}
    {w L ch budget : Nat} {regs : List EventRegistration} {sf : SwfStream}
    (h1 : readEventWord v (align s0) = .ok (w, s1))
    (h2 : readU32 s1 = .ok (L, s2))
    (hkb : readKeyStage w L s2 = .ok ((ch, budget), s3))
    (htag : s0.tagEnd < 2 ^ 32 - 1)
    (hs : decodeEventEntry specActionParse v s0 = .ok (.next regs sf)) :
    ∀ r ∈ regs, r.rangeLen = if w.testBit 17 then L - 1 else L := by
  unfold decodeEventEntry at hs
  simp only [h1, Bind.bind, Except.bind] at hs
  by_cases hw : w = 0
  · rw [if_pos hw] at hs
    exact absurd hs (by simp [pure, Except.pure])
  rw [if_neg hw] at hs
  simp only [h2] at hs
  by_cases hlen : s2.tagEnd - s2.pos < L
  · rw [if_pos hlen] at hs
    exact absurd hs (by simp [pure, Except.pure])
  rw [if_neg hlen] at hs
  simp only [hkb, entryTail, specActionParse] at hs
  rw [if_neg (lt_irrefl budget)] at hs
  cases hsk : skipBytes budget s3 with
  | none => rw [hsk] at hs; exact absurd hs (by simp)
  | some s4 =>
    rw [hsk] at hs
    simp only [Except.ok.injEq, EntryStep.next.injEq] at hs
    obtain ⟨hregs, hsf⟩ := hs
    subst hregs
    intro r hr
    have hlenr := (mem_emitEventRegistrations.mp hr).2.2.2.1
    obtain ⟨hbud, k1, k2, k3⟩ := readKeyStage_ok hkb
    have hskip := skipBytes_some hsk
    have htags : s3.tagEnd = s0.tagEnd := by
      have e1 := readEventWord_ok h1
      have e2 := readU32_ok h2
      have e3 := align_fields s0
      omega
    by_cases hb : w.testBit 17
    · rw [if_pos hb]
      rw [if_pos hb] at hbud
      by_cases hL0 : L = 0
      · rw [if_pos hL0] at hbud
        exact absurd hskip.1 (by omega)
      · rw [if_neg hL0] at hbud
        omega
    · rw [if_neg hb]
      rw [if_neg hb] at hbud
      omega

/-- Witness for C2: the spec's own test vector, a flag word with bit 17 set and
declared length 5, captures exactly 4 action bytes (one key-code byte having been
consumed first). -/
theorem captured_range_length_witness :
    ({ kind := 17, rangeStart := 9, rangeLen := 4, keyCode := 7 }
        : EventRegistration).rangeLen
      = if (131072 : Nat).testBit 17 then 5 - 1 else 5 :=
  @captured_range_length 6
    { bytes := [0, 0, 2, 0, 5, 0, 0, 0, 7, 1, 2, 3, 4], pos := 0,
      unusedBits := 0, tagEnd := 13 }
    { bytes := [0, 0, 2, 0, 5, 0, 0, 0, 7, 1, 2, 3, 4], pos := 4,
      unusedBits := 0, tagEnd := 13 }
    { bytes := [0, 0, 2, 0, 5, 0, 0, 0, 7, 1, 2, 3, 4], pos := 8,
      unusedBits := 0, tagEnd := 13 }
    { bytes := [0, 0, 2, 0, 5, 0, 0, 0, 7, 1, 2, 3, 4], pos := 9,
      unusedBits := 0, tagEnd := 13 }
    131072 5 7 4
    [{ kind := 17, rangeStart := 9, rangeLen := 4, keyCode := 7 }]
    { bytes := [0, 0, 2, 0, 5, 0, 0, 0, 7, 1, 2, 3, 4], pos := 13,
      unusedBits := 0, tagEnd := 13 }
    (by rfl) (by rfl) (by rfl) (by decide) (by rfl)
    { kind := 17, rangeStart := 9, rangeLen := 4, keyCode := 7 } (by decide)

theorem readU16_eval {s : SwfStream} (h : s.pos + 2 ≤ s.tagEnd) :
    readU16 s = .ok (s.byteAt s.pos + 256 * s.byteAt (s.pos + 1),
      { s with pos := s.pos + 2, unusedBits := 0 }) := by
  unfold readU16 readU8
  rw [if_pos (show s.pos < s.tagEnd by omega)]
  simp only [Bind.bind, Except.bind]
  rw [if_pos (show s.pos + 1 < s.tagEnd by omega)]
  simp only [pure, Except.pure, Except.ok.injEq, Prod.mk.injEq, SwfStream.byteAt]

theorem readU32_eval {s : SwfStream} (h : s.pos + 4 ≤ s.tagEnd) :
    ∃ b, readU32 s = .ok (b, { s with pos := s.pos + 4, unusedBits := 0 }) := by
  unfold readU32
  rw [readU16_eval (by omega)]
  simp only [Bind.bind, Except.bind]
  rw [readU16_eval (show s.pos + 2 + 2 ≤ s.tagEnd by omega)]
  simp only [pure, Except.pure]
  rw [show s.pos + 2 + 2 = s.pos + 4 from by omega]
  exact ⟨_, rfl⟩

theorem readEventWord_eval {v : Nat} {s : SwfStream}
    (h : s.pos + (if 6 ≤ v then 4 else 2) ≤ s.tagEnd) :
    ∃ b, readEventWord v s
      = .ok (b, { s with pos := s.pos + (if 6 ≤ v then 4 else 2),
                         unusedBits := 0 }) := by
  unfold readEventWord
  by_cases hv : 6 ≤ v
  · rw [if_pos hv] at h ⊢
    simp only [if_pos hv]
    exact readU32_eval h
  · rw [if_neg hv] at h ⊢
    simp only [if_neg hv]
    exact ⟨_, readU16_eval h⟩

theorem readActionsHeader_ok {v : Nat} {s : SwfStream} {w : Nat} {s' : SwfStream}
    (h : readActionsHeader v s = .ok (w, s')) :
    s'.bytes = s.bytes ∧ s'.tagEnd = s.tagEnd ∧
      s'.pos = s.pos + 2 + (if 6 ≤ v then 4 else 2) ∧ s'.unusedBits = 0 := by
  unfold readActionsHeader at h
  cases h1 : readU16 s with
  | error e => simp [h1, Bind.bind, Except.bind] at h
  | ok p1 =>
    obtain ⟨r, s1⟩ := p1
    simp only [h1, Bind.bind, Except.bind] at h
    obtain ⟨e1, e2, e3, e4, e5⟩ := readU16_ok h1
    obtain ⟨f1, f2, f3, f4, f5⟩ := readEventWord_ok h
    refine ⟨f1.trans e1, f2.trans e2, ?_, f4⟩
    by_cases hv : 6 ≤ v <;> simp only [hv, if_true, if_false] at f3 ⊢ <;> omega

/-- C9: before the first per-event entry, the demultiplexer always consumes an
additional header (src/server/swf/PlaceObject2Tag.cpp:70-83): a 2-byte reserved field
followed by one cumulative all-event-flags word, u32 wide when the format version is
at least 6 and u16 otherwise — so every event table costs exactly 6 or 4 header bytes
before the first per-event flag word; and the header succeeds exactly when that many
bytes remain, regardless of the reserved field's value (a nonzero reserved field is
only warned about, never fatal). -/
theorem actions_header_cost (v : Nat) (s : SwfStream) :
    (∀ w s', readActionsHeader v s = .ok (w, s') →
        s'.pos = s.pos + 2 + (if 6 ≤ v then 4 else 2) ∧ s'.unusedBits = 0 ∧
          s'.tagEnd = s.tagEnd ∧ s'.bytes = s.bytes) ∧
    ((∃ p, readActionsHeader v s = .ok p) ↔
        s.pos + 2 + (if 6 ≤ v then 4 else 2) ≤ s.tagEnd) := by
  constructor
  · intro w s' h
    obtain ⟨e1, e2, e3, e4⟩ := readActionsHeader_ok h
    exact ⟨e3, e4, e2, e1⟩
  · constructor
    · rintro ⟨⟨w, s'⟩, h⟩
      obtain ⟨e1, e2, e3, e4⟩ := readActionsHeader_ok h
      unfold readActionsHeader at h
      cases h1 : readU16 s with
      | error e => simp [h1, Bind.bind, Except.bind] at h
      | ok p1 =>
        obtain ⟨r, s1⟩ := p1
        obtain ⟨g1, g2, g3, g4, g5⟩ := readU16_ok h1
        simp only [h1, Bind.bind, Except.bind] at h
        obtain ⟨f1, f2, f3, f4, f5⟩ := readEventWord_ok h
        omega
    · intro hroom
      unfold readActionsHeader
      rw [readU16_eval (by omega)]
      simp only [Bind.bind, Except.bind]
      obtain ⟨b, hb⟩ := @readEventWord_eval v
        { s with pos := s.pos + 2, unusedBits := 0 }
        (by dsimp only; omega)
      rw [hb]
      exact ⟨_, rfl⟩

/-- Witness for C9: a version-6 header with a nonzero reserved field still succeeds
and consumes exactly 6 bytes before the first entry's flag word. -/
theorem actions_header_cost_witness :
    ({ bytes := [9, 9, 0, 0, 2, 0], pos := 6, unusedBits := 0, tagEnd := 6 }
        : SwfStream).pos
        = ({ bytes := [9, 9, 0, 0, 2, 0], pos := 0, unusedBits := 0, tagEnd := 6 }
            : SwfStream).pos + 2 + (if 6 ≤ 6 then 4 else 2) ∧
    (({ bytes := [9, 9, 0, 0, 2, 0], pos := 0, unusedBits := 0, tagEnd := 6 }
        : SwfStream).pos + 2 + (if 6 ≤ 6 then 4 else 2)
        ≤ ({ bytes := [9, 9, 0, 0, 2, 0], pos := 0, unusedBits := 0, tagEnd := 6 }
            : SwfStream).tagEnd) := by
  have h := actions_header_cost 6
    { bytes := [9, 9, 0, 0, 2, 0], pos := 0, unusedBits := 0, tagEnd := 6 }
  refine ⟨(h.1 131072
    { bytes := [9, 9, 0, 0, 2, 0], pos := 6, unusedBits := 0, tagEnd := 6 }
    (by rfl)).1, h.2.mp ⟨(131072,
      { bytes := [9, 9, 0, 0, 2, 0], pos := 6, unusedBits := 0, tagEnd := 6 }),
      by rfl⟩⟩

/-- C8: for every decoded placement tag, the internal depth equals the raw encoded
u16 depth plus the fixed static depth offset
(src/server/swf/PlaceObject2Tag.cpp:42 and 241), so every decoded depth is at least
the offset and on-disk depth 0 lands in the negative sentinel range; and the loader
(src/server/swf/PlaceObject2Tag.cpp:420-428) registers the depth for timeline
bookkeeping exactly when it lies within the timeline-reserved range (negative and at
least the static depth offset) — which, for decoded depths, is exactly when the depth
is negative; all other depths are only logged. -/
theorem depth_offset_and_timeline_registration {s : SwfStream} {d : Int}
    {s' : SwfStream} (h : readDepth s = .ok (d, s')) :
    (∃ raw, readU16 s = .ok (raw, s') ∧ d = (raw : Int) + staticDepthOffset) ∧
    staticDepthOffset ≤ d ∧
    (loaderRegistersTimelineDepth d = true ↔ (d < 0 ∧ staticDepthOffset ≤ d)) ∧
    (loaderRegistersTimelineDepth d = true ↔ d < 0) := by
  unfold readDepth at h
  cases h16 : readU16 s with
  | error e => rw [h16] at h; cases h
  | ok p =>
    obtain ⟨raw, s1⟩ := p
    rw [h16] at h
    simp only [Except.map, Except.ok.injEq, Prod.mk.injEq] at h
    obtain ⟨hd, hs⟩ := h
    subst hs
    have hoff : staticDepthOffset ≤ d := by
      rw [← hd]
      unfold staticDepthOffset
      omega
    refine ⟨⟨raw, rfl, hd.symm⟩, hoff, ?_, ?_⟩
    · unfold loaderRegistersTimelineDepth
      simp [decide_eq_true_eq]
    · unfold loaderRegistersTimelineDepth
      simp [decide_eq_true_eq]
      intro _
      exact hoff

/-- Witness for C8: on-disk depth 0 decodes to the negative internal depth equal to
the static depth offset, and the loader registers it as a timeline depth. -/
theorem depth_offset_and_timeline_registration_witness :
    readDepth { bytes := [0, 0], pos := 0, unusedBits := 0, tagEnd := 2 }
      = .ok (-16384, { bytes := [0, 0], pos := 2, unusedBits := 0, tagEnd := 2 }) ∧
    loaderRegistersTimelineDepth (-16384) = true := by
  have h := @depth_offset_and_timeline_registration
    { bytes := [0, 0], pos := 0, unusedBits := 0, tagEnd := 2 }
    (-16384)
    { bytes := [0, 0], pos := 2, unusedBits := 0, tagEnd := 2 }
    (by rfl)
  exact ⟨by rfl, h.2.2.2.mpr (by decide)⟩

/-- C3: for every legacy PlaceObject tag (src/server/swf/PlaceObject2Tag.cpp:37-63),
decode reads character-id (u16), then depth (u16, offset-adjusted), then a mandatory
matrix, and then reads the optional RGB (not RGBA) color transform if and only if the
cursor position after the matrix is strictly before the tag's declared end — presence
is decided purely by the remaining-byte count, not by any flag. -/
theorem legacy_decode (s0 : SwfStream) {cid : Nat} {s1 : SwfStream} {d : Int}
    {s2 : SwfStream} {m : Matrix} {s3 : SwfStream} {rec : PlaceRecord}
    {sf : SwfStream}
    (h1 : readU16 s0 = .ok (cid, s1))
    (h2 : readDepth s1 = .ok (d, s2))
    (h3 : readMatrix s2 = .ok (m, s3))
    (hs : readPlaceObject s0 = .ok (rec, sf)) :
    rec.characterId = some cid ∧
    (∃ raw, readU16 s1 = .ok (raw, s2) ∧ d = (raw : Int) + staticDepthOffset) ∧
    rec.depth = d ∧ rec.matrixV = m ∧
    (s3.pos < s3.tagEnd →
        ∃ c s4, readCxform .rgb s3 = .ok (c, s4) ∧ rec.colorTransform = c ∧
          sf = s4) ∧
    (¬ s3.pos < s3.tagEnd → rec.colorTransform = Cxform.default ∧ sf = s3) := by
  have hraw : ∃ raw, readU16 s1 = .ok (raw, s2) ∧ d = (raw : Int) + staticDepthOffset := by
    unfold readDepth at h2
    cases h16 : readU16 s1 with
    | error e => rw [h16] at h2; cases h2
    | ok p =>
      obtain ⟨raw, s2x⟩ := p
      rw [h16] at h2
      simp only [Except.map, Except.ok.injEq, Prod.mk.injEq] at h2
      exact ⟨raw, by rw [h2.2], h2.1.symm⟩
  unfold readPlaceObject at hs
  simp only [h1, h2, h3, Bind.bind, Except.bind] at hs
  by_cases hc : s3.pos < s3.tagEnd
  · rw [if_pos hc] at hs
    cases h4 : readCxform .rgb s3 with
    | error e => rw [h4] at hs; cases hs
    | ok p =>
      obtain ⟨c, s4⟩ := p
      rw [h4] at hs
      simp only [pure, Except.pure, Except.ok.injEq, Prod.mk.injEq] at hs
      obtain ⟨hrec, hsf⟩ := hs
      subst hsf
      rw [← hrec]
      refine ⟨rfl, hraw, rfl, rfl, fun _ => ⟨c, s4, rfl, ?_, rfl⟩, fun hnc => absurd hc hnc⟩
      simp [readPlaceObject.mkLegacyRecord]
  · rw [if_neg hc] at hs
    simp only [pure, Except.pure, Except.ok.injEq, Prod.mk.injEq] at hs
    obtain ⟨hrec, hsf⟩ := hs
    subst hsf
    rw [← hrec]
    refine ⟨rfl, hraw, rfl, rfl, fun hcc => absurd hcc hc, fun _ => ⟨?_, rfl⟩⟩
    simp [readPlaceObject.mkLegacyRecord]

/-- Witness for C3: a 5-byte legacy tag (character id 1, raw depth 2, a one-byte
matrix) whose cursor reaches the tag end with the matrix, so no color transform is
read and the record keeps the neutral one. -/
theorem legacy_decode_witness :
    readPlaceObject { bytes := [1, 0, 2, 0, 0], pos := 0, unusedBits := 0,
                      tagEnd := 5 }
      = .ok ({ characterId := some 1, depth := -16382, hasMatrix := false,
               matrixV := Matrix.default, hasCxform := false,
               colorTransform := Cxform.default, ratio := -1, name := none,
               clipDepth := -1000000, eventHandlers := [], placeType := .place },
             { bytes := [1, 0, 2, 0, 0], pos := 5, unusedBits := 1, tagEnd := 5 }) ∧
    ({ characterId := some 1, depth := -16382, hasMatrix := false,
       matrixV := Matrix.default, hasCxform := false,
       colorTransform := Cxform.default, ratio := -1, name := none,
       clipDepth := -1000000, eventHandlers := [], placeType := .place }
        : PlaceRecord).colorTransform = Cxform.default ∧
    ({ characterId := some 1, depth := -16382, hasMatrix := false,
       matrixV := Matrix.default, hasCxform := false,
       colorTransform := Cxform.default, ratio := -1, name := none,
       clipDepth := -1000000, eventHandlers := [], placeType := .place }
        : PlaceRecord).characterId = some 1 := by
  have h := @legacy_decode
    { bytes := [1, 0, 2, 0, 0], pos := 0, unusedBits := 0, tagEnd := 5 }
    1
    { bytes := [1, 0, 2, 0, 0], pos := 2, unusedBits := 0, tagEnd := 5 }
    (-16382)
    { bytes := [1, 0, 2, 0, 0], pos := 4, unusedBits := 0, tagEnd := 5 }
    Matrix.default
    { bytes := [1, 0, 2, 0, 0], pos := 5, unusedBits := 1, tagEnd := 5 }
    { characterId := some 1, depth := -16382, hasMatrix := false,
      matrixV := Matrix.default, hasCxform := false,
      colorTransform := Cxform.default, ratio := -1, name := none,
      clipDepth := -1000000, eventHandlers := [], placeType := .place }
    { bytes := [1, 0, 2, 0, 0], pos := 5, unusedBits := 1, tagEnd := 5 }
    (by rfl) (by rfl) (by rfl) (by rfl)
  exact ⟨by rfl, (h.2.2.2.2.2 (by decide)).1, h.1⟩

theorem lookupDepth_cons (p : Int × Instance) (t : DisplayList) (d : Int) :
    lookupDepth (p :: t) d = if p.1 == d then some p.2 else lookupDepth t d := by
  unfold lookupDepth
  cases hp : (p.1 == d) <;> simp [List.find?_cons, hp]

theorem moveDisplayObject_absent {dl : DisplayList} {d : Int}
    (h : lookupDepth dl d = none) (cx : Option Cxform) (mtx : Option Matrix)
    (ratio clip : Int) : moveDisplayObject dl d cx mtx ratio clip = dl := by
  induction dl with
  | nil => rfl
  | cons p t ih =>
    rw [lookupDepth_cons] at h
    by_cases hp : p.1 == d
    · simp [hp] at h
    · rw [if_neg hp] at h
      unfold moveDisplayObject at ih ⊢
      simp only [List.map_cons, if_neg hp]
      rw [ih h]

theorem moveDisplayObject_lookup_other {dl : DisplayList} {d d' : Int}
    (h : d' ≠ d) (cx : Option Cxform) (mtx : Option Matrix) (ratio clip : Int) :
    lookupDepth (moveDisplayObject dl d cx mtx ratio clip) d'
      = lookupDepth dl d' := by
  induction dl with
  | nil => rfl
  | cons p t ih =>
    unfold moveDisplayObject at ih ⊢
    simp only [List.map_cons]
    by_cases hp : p.1 == d
    · rw [if_pos hp, lookupDepth_cons, lookupDepth_cons]
      have hne : ¬ p.1 == d' := by
        simp only [beq_iff_eq] at hp ⊢
        rw [hp]
        exact fun hc => h hc.symm
      simp only [hne]
      simp only [if_neg (show ¬(false = true) from by decide)]
      exact ih
    · rw [if_neg hp, lookupDepth_cons, lookupDepth_cons]
      by_cases hq : p.1 == d'
      · rw [if_pos hq, if_pos hq]
      · rw [if_neg hq, if_neg hq]
        exact ih

theorem moveDisplayObject_lookup_present {dl : DisplayList} {d : Int}
    {inst : Instance} (h : lookupDepth dl d = some inst) (cx : Option Cxform)
    (mtx : Option Matrix) (ratio clip : Int) :
    lookupDepth (moveDisplayObject dl d cx mtx ratio clip) d
      = some (moveUpdate cx mtx ratio clip inst) := by
  induction dl with
  | nil => cases h
  | cons p t ih =>
    rw [lookupDepth_cons] at h
    unfold moveDisplayObject at ih ⊢
    simp only [List.map_cons]
    by_cases hp : p.1 == d
    · rw [if_pos hp] at h
      rw [if_pos hp, lookupDepth_cons]
      simp only [hp, if_pos]
      injection h with h
      rw [h]
    · rw [if_neg hp] at h
      rw [if_neg hp, lookupDepth_cons, if_neg hp]
      exact ih h

/-- C7: for every record with PlaceType Move, apply
(src/server/swf/PlaceObject2Tag.cpp:368-375) updates, on the existing instance only,
exactly the fields actually present on the record — the color transform only when
has-cxform was set and the matrix only when has-matrix was set (absent fields are
passed as null, and sentinel ratio and clip-depth values likewise leave the old
values) — while the instance identity token, character, name, and event registrations
are untouched; a missing occupant is a no-op, and other depths never change. -/
theorem move_updates_only_present_fields (dict : Nat → Bool) (freshId : Nat)
    (rec : PlaceRecord) (dl : DisplayList) (hmv : rec.placeType = .move) :
    (lookupDepth dl rec.depth = none → execute dict freshId rec dl = dl) ∧
    (∀ d, d ≠ rec.depth →
        lookupDepth (execute dict freshId rec dl) d = lookupDepth dl d) ∧
    (∀ inst, lookupDepth dl rec.depth = some inst →
        lookupDepth (execute dict freshId rec dl) rec.depth = some
          { inst with
              cxform := if rec.hasCxform then rec.colorTransform else inst.cxform,
              mtx := if rec.hasMatrix then rec.matrixV else inst.mtx,
              ratio := if rec.ratio = noRatioValue then inst.ratio else rec.ratio,
              clipDepth := if rec.clipDepth = noClipDepthValue then inst.clipDepth
                           else rec.clipDepth }) := by
  unfold execute
  rw [hmv]
  refine ⟨fun h => moveDisplayObject_absent h _ _ _ _,
    fun d hd => moveDisplayObject_lookup_other hd _ _ _ _,
    fun inst h => ?_⟩
  rw [moveDisplayObject_lookup_present h]
  unfold moveUpdate
  by_cases hcx : rec.hasCxform <;> by_cases hmx : rec.hasMatrix <;>
    simp [hcx, hmx]

/-- A sample record of PlaceType Move carrying only a matrix (for the C7 witness). -/
def sampleMoveRecord : PlaceRecord :=
  { characterId := none, depth := -16382, hasMatrix := true,
    matrixV := { scaleV := some (1, 2), rotateV := none, translateV := (3, 4) },
    hasCxform := false, colorTransform := Cxform.default, ratio := -1,
    name := none, clipDepth := -1000000, eventHandlers := [],
    placeType := .move }

/-- A sample occupant of depth -16382 (for the C7 witness). -/
def sampleOccupant : Instance :=
  { instId := 5, charId := 2, instName := none,
    cxform := { kind := .rgba, multTerms := some [1, 1, 1, 1], addTerms := none },
    mtx := Matrix.default, ratio := 0, clipDepth := -1000000,
    events := [{ kind := 0, rangeStart := 0, rangeLen := 1, keyCode := 0 }] }

/-- A sample bystander instance at depth 3 (for the C7 witness). -/
def sampleBystander : Instance :=
  { instId := 9, charId := 1, instName := none, cxform := Cxform.default,
    mtx := Matrix.default, ratio := 0, clipDepth := -1000000, events := [] }

/-- Witness for C7: moving depth -16382 with only a matrix present updates the
occupant's matrix but keeps its color transform, identity token, and registrations;
the unrelated depth 3 is untouched. -/
theorem move_updates_only_present_fields_witness :
    lookupDepth (execute (fun _ => true) 77 sampleMoveRecord
        [(3, sampleBystander), (-16382, sampleOccupant)]) (-16382)
      = some { sampleOccupant with
                 mtx := { scaleV := some (1, 2), rotateV := none,
                          translateV := (3, 4) } } ∧
    lookupDepth (execute (fun _ => true) 77 sampleMoveRecord
        [(3, sampleBystander), (-16382, sampleOccupant)]) 3
      = lookupDepth [(3, sampleBystander), (-16382, sampleOccupant)] 3 := by
  have h := move_updates_only_present_fields (fun _ => true) 77 sampleMoveRecord
    [(3, sampleBystander), (-16382, sampleOccupant)] (by rfl)
  refine ⟨?_, h.2.1 3 (by decide)⟩
  have h2 := h.2.2 sampleOccupant (by rfl)
  simp [sampleMoveRecord, sampleOccupant] at h2
  exact h2

set_option maxHeartbeats 4000000 in
/-- The field stage of the source embedding agrees, flag for flag and field for
field, with the field stage written from the spec's words. -/
theorem fields_eq (parse : Nat → List Nat → Nat) (v : Nat)
    (a cb nmb r cxb mxb chb mvb bc bm fl : Bool) (s : SwfStream) :
    readPlaceObject2Fields parse v a cb nmb r cxb mxb chb mvb bc bm fl s
      = specDecodeExtendedFields parse v
          { hasActions := a, hasClipDepth := cb, hasName := nmb, hasRatio := r,
            hasCxform := cxb, hasMatrix := mxb, hasCharacter := chb, move := mvb,
            hasBitmapCaching := bc, hasBlendMode := bm, hasFilters := fl } s := by
  unfold readPlaceObject2Fields specDecodeExtendedFields
  dsimp only
  congr 1
  funext p
  obtain ⟨depth, s1⟩ := p
  dsimp only
  congr 1
  funext p
  obtain ⟨cid, s2⟩ := p
  dsimp only
  congr 1
  funext p
  obtain ⟨mtx, s3⟩ := p
  dsimp only
  congr 1
  funext p
  obtain ⟨cxv, s4⟩ := p
  dsimp only
  congr 1
  funext p
  obtain ⟨ratio, s5⟩ := p
  dsimp only
  congr 1
  funext p
  obtain ⟨nmv, s6⟩ := p
  dsimp only
  congr 1
  funext p
  obtain ⟨clip, s7⟩ := p
  dsimp only
  congr 1
  funext p
  obtain ⟨fils, s8⟩ := p
  dsimp only
  congr 1
  funext p
  obtain ⟨bmv, s9⟩ := p
  dsimp only
  congr 1
  funext p
  obtain ⟨bcv, s10⟩ := p
  dsimp only
  congr 1
  funext p
  obtain ⟨evs, s11⟩ := p
  dsimp only
  unfold mkExtendedRecord specRecord
  dsimp only
  cases chb <;> cases mvb <;> rfl

set_option maxHeartbeats 4000000 in
/-- C4: for every extended-variant tag, the source decoder
(src/server/swf/PlaceObject2Tag.cpp:213-332) coincides, on every input, with the
decoder written from the spec's words: it reads exactly 8 one-bit flags in the order
has-actions, has-clip-depth, has-name, has-ratio, has-cxform, has-matrix,
has-character, move; reads the extra 5 reserved bits plus the has-bitmap-caching,
has-blend-mode, has-filters flags if and only if the tag is PlaceObject3 and the
format version is at least 8; and then decodes the gated fields in exactly the order
depth (unconditional), character id, matrix, RGBA color transform, ratio (sentinel
default if absent), name, clip depth (sentinel default if absent), filter list
(consumed but not attached to the record), blend-mode byte, bitmap-caching byte, and
finally the event table when has-actions is set. -/
theorem extended_decode_order (parse : Nat → List Nat → Nat) (v : Nat)
    (place_2 : Bool) (s0 : SwfStream) :
    readPlaceObject2 parse v place_2 s0 = specDecodeExtended parse v place_2 s0 := by
  unfold readPlaceObject2 specDecodeExtended specReadExtFlags
  rcases hb1 : readBit (align s0) with e | ⟨a, s1⟩
  · simp only [hb1, Bind.bind, Except.bind]
  · simp only [hb1, Bind.bind, Except.bind]
    rcases hb2 : readBit s1 with e | ⟨cb, s2⟩
    · simp only [hb2]
    · simp only [hb2]
      rcases hb3 : readBit s2 with e | ⟨nmb, s3⟩
      · simp only [hb3]
      · simp only [hb3]
        rcases hb4 : readBit s3 with e | ⟨r, s4⟩
        · simp only [hb4]
        · simp only [hb4]
          rcases hb5 : readBit s4 with e | ⟨cxb, s5⟩
          · simp only [hb5]
          · simp only [hb5]
            rcases hb6 : readBit s5 with e | ⟨mxb, s6⟩
            · simp only [hb6]
            · simp only [hb6]
              rcases hb7 : readBit s6 with e | ⟨chb, s7⟩
              · simp only [hb7]
              · simp only [hb7]
                rcases hb8 : readBit s7 with e | ⟨mvb, s8⟩
                · simp only [hb8]
                · simp only [hb8]
                  by_cases hv8 : (!place_2 && decide (8 ≤ v)) = true
                  · simp only [if_pos hv8]
                    rcases h9 : readBits 5 s8 with e | ⟨resv, s9⟩
                    · simp only [h9, Bind.bind, Except.bind]
                    · simp only [h9, Bind.bind, Except.bind]
                      rcases h10 : readBit s9 with e | ⟨hbc, s10⟩
                      · simp only [h10]
                      · simp only [h10]
                        rcases h11 : readBit s10 with e | ⟨hbm, s11⟩
                        · simp only [h11]
                        · simp only [h11]
                          rcases h12 : readBit s11 with e | ⟨hf, s12⟩
                          · simp only [h12]
                          · simp only [h12, pure, Except.pure]
                            exact fields_eq parse v a cb nmb r cxb mxb chb mvb
                              hbc hbm hf s12
                  · simp only [if_neg hv8, pure, Except.pure]
                    exact fields_eq parse v a cb nmb r cxb mxb chb mvb
                      false false false s8

end Gnash
